import Mathlib

set_option maxHeartbeats 1000000

/-! Shallow embedding of the sec-filings extraction and reconciliation
pipeline.  Python sources: src/sec_filings/database.py, cache.py,
affiliation_search.py, parser.py and src/test_fakes.py.  SQL tables are
modelled as lists of rows in insertion order; SELECT with fetchone takes the
first matching row, UPDATE rewrites every matching row, and SQL COALESCE
keeps the first non-null value.  Serial primary keys are modelled with
explicit counters in the database state. -/

/-- SQL COALESCE of two values: the first argument when non-null, else the
second. -/
def sqlCoalesce {α : Type} : Option α → Option α → Option α
  | some v, _ => some v
  | none, b => b

/-- Python str.lower, character by character (the filings data is ASCII). -/
def str_lower (s : String) : String := String.mk (s.toList.map Char.toLower)

/-- Python slice s[:n], counted in characters. -/
def str_take (n : Nat) (s : String) : String := String.mk (s.toList.take n)

/-- Drop leading and trailing whitespace from a character list. -/
def chars_strip (cs : List Char) : List Char :=
  ((cs.dropWhile Char.isWhitespace).reverse.dropWhile Char.isWhitespace).reverse

/-- Python str.strip. -/
def str_strip (s : String) : String := String.mk (chars_strip s.toList)

/-- Parse a non-empty run of decimal digits. -/
def digits_to_nat? : List Char → Option Nat
  | [] => none
  | cs =>
      if cs.all Char.isDigit then
        some (cs.foldl (fun acc c => acc * 10 + (c.toNat - 48)) 0)
      else none

/-- Python int(s) on the year strings of the pipeline: an optional sign
followed by digits (int also tolerates surrounding whitespace and
underscores, which the year data never contains). -/
def str_to_int? (s : String) : Option Int :=
  match s.toList with
  | '-' :: rest => (digits_to_nat? rest).map (fun n => -(n : Int))
  | '+' :: rest => (digits_to_nat? rest).map (fun n => (n : Int))
  | cs => (digits_to_nat? cs).map (fun n => (n : Int))

/-- Split a character list into maximal whitespace-free words. -/
def split_ws_chars : List Char → List Char → List String
  | acc, [] => if acc.isEmpty then [] else [String.mk acc.reverse]
  | acc, c :: cs =>
      if c.isWhitespace then
        if acc.isEmpty then split_ws_chars [] cs
        else String.mk acc.reverse :: split_ws_chars [] cs
      else split_ws_chars (c :: acc) cs

/-- Python str.split() with no argument: split on whitespace runs, dropping
empty pieces. -/
def str_split_ws (s : String) : List String := split_ws_chars [] s.toList

/-- Row of the Alumni table. -/
structure AlumniRow where
  id : Nat
  buid : Option String
  year_of_birth : Option Int
  relationship_to_bu : Option String
deriving DecidableEq, Repr

/-- Row of the Name table. -/
structure NameRow where
  alumni_id : Nat
  full_name : String
deriving DecidableEq, Repr

/-- Row of the Degree table. -/
structure DegreeRow where
  id : Nat
  alumni_id : Nat
  school : Option String
  degree_type : Option String
  start_year : Option Int
  end_year : Option Int
deriving DecidableEq, Repr

/-- Row of the Companies table. -/
structure CompanyRow where
  id : Nat
  name : Option String
  cik : Option String
deriving DecidableEq, Repr

/-- Row of the Employment_History table. -/
structure EmploymentRow where
  alumni_id : Nat
  company_id : Option Nat
  company_name : Option String
  year_start : Option Int
  year_end : Option Int
  location : Option String
  compensation : Option String
deriving DecidableEq, Repr

/-- Row of the Filings table. -/
structure FilingRow where
  alumni_id : Nat
  link : String
  company_id : Option Nat
  date : Option String
  text_extracted : Option String
deriving DecidableEq, Repr

/-- The persistent roster database (schema.sql tables used by database.py). -/
structure DB where
  alumni : List AlumniRow
  names : List NameRow
  degrees : List DegreeRow
  companies : List CompanyRow
  employment : List EmploymentRow
  filings : List FilingRow
  next_alumni_id : Nat
  next_degree_id : Nat
  next_company_id : Nat
deriving DecidableEq, Repr

/-- The dict produced by the delegated extraction for one person, as read by
insert_alumni and update_alumni via .get. -/
structure AlumReturn where
  name : Option String
  year_of_birth : Option Int
  relationship : Option String
deriving DecidableEq, Repr

/-- database.py search_buid: placeholder which always returns None. -/
def search_buid (_alumni_name : Option String) : Option String := none

/-- database.py clean_relationship: lower-case the value, keep it when it is
in the accepted vocabulary, map alumni and alumnus to student, otherwise
return null. -/
def clean_relationship (relationship : Option String) : Option String :=
  let accepted := ["student", "professor", "admin", "advisor",
    "board_of_trustees", "donor", "researcher", "business", "transitive"]
  let r := relationship.map str_lower
  match r with
  | some v =>
      if accepted.contains v then some v
      else if v = "alumni" ∨ v = "alumnus" then some "student"
      else none
  | none => none

/-- database.py alumni_match: ids of alumni having a Name row with the given
full name; the name Unknown never matches, and a null name matches no row
(SQL equality with NULL). -/
def alumni_match (full_name : Option String) (db : DB) : List Nat :=
  if full_name = some "Unknown" then []
  else
    match full_name with
    | none => []
    | some n =>
        db.alumni.flatMap (fun a =>
          (db.names.filter (fun nm =>
            nm.alumni_id == a.id && nm.full_name == n)).map (fun _ => a.id))

/-- database.py insert_alumni: append a fresh Alumni row (buid from
search_buid, cleaned relationship) and return the new id. -/
def insert_alumni (ret : AlumReturn) (db : DB) : DB × Nat :=
  let buid := search_buid ret.name
  let relationship := clean_relationship ret.relationship
  let new_id := db.next_alumni_id
  ({ db with
      alumni := db.alumni ++ [⟨new_id, buid, ret.year_of_birth, relationship⟩],
      next_alumni_id := new_id + 1 }, new_id)

/-- The UPDATE statement of database.py update_alumni: coalesce-update every
Alumni row whose id matches (existing non-null values win). -/
def apply_alumni_update (alum_id : Nat) (ret : AlumReturn) (db : DB) : DB :=
  let buid := search_buid ret.name
  let yob := ret.year_of_birth
  let relationship := clean_relationship ret.relationship
  { db with
      alumni := db.alumni.map (fun r =>
        if r.id == alum_id then
          { r with
              buid := sqlCoalesce r.buid buid,
              year_of_birth := sqlCoalesce r.year_of_birth yob,
              relationship_to_bu := sqlCoalesce r.relationship_to_bu relationship }
        else r) }

/-- database.py update_alumni.  When the incoming year of birth is present,
the stored year is fetched (none models the Python TypeError when the row is
absent); a non-null stored year differing by more than 2 triggers an insert
of a brand-new row, otherwise the row is coalesce-updated.  The second
component is the id returned by the insert branch. -/
def update_alumni (alum_id : Nat) (ret : AlumReturn) (db : DB) :
    Option (DB × Option Nat) :=
  match ret.year_of_birth with
  | some yob =>
      match db.alumni.find? (fun r => r.id == alum_id) with
      | none => none
      | some row =>
          match row.year_of_birth with
          | some existing_yob =>
              if (existing_yob - yob).natAbs > 2 then
                let res := insert_alumni ret db
                some (res.1, some res.2)
              else some (apply_alumni_update alum_id ret db, none)
          | none => some (apply_alumni_update alum_id ret db, none)
  | none => some (apply_alumni_update alum_id ret db, none)

/-- database.py upsert_alumni: update the first name match, else insert; the
returned id is the matched id (even when update_alumni branched) or the
fresh id. -/
def upsert_alumni (ret : AlumReturn) (db : DB) : Option (DB × Nat) :=
  match alumni_match ret.name db with
  | alum_id :: _ =>
      match update_alumni alum_id ret db with
      | some (db2, _) => some (db2, alum_id)
      | none => none
  | [] =>
      let res := insert_alumni ret db
      some (res.1, res.2)

/-- The degree payload dict read by insert_degree and update_degree. -/
structure DegreeDict where
  school : Option String
  degree_type : Option String
  start_year : Option Int
  end_year : Option Int
deriving DecidableEq, Repr

/-- database.py insert_degree: append a fresh Degree row and return its id. -/
def insert_degree (alumni_id : Nat) (d : DegreeDict) (db : DB) : DB × Nat :=
  let new_id := db.next_degree_id
  ({ db with
      degrees := db.degrees ++
        [⟨new_id, alumni_id, d.school, d.degree_type, d.start_year, d.end_year⟩],
      next_degree_id := new_id + 1 }, new_id)

/-- SQL equality test between two nullable values: NULL never compares
equal. -/
def sqlEq {α : Type} [BEq α] : Option α → Option α → Bool
  | some a, some b => a == b
  | _, _ => false

/-- The UPDATE statement of database.py update_degree: coalesce-update every
Degree row whose id matches. -/
def apply_degree_update (degree_id : Nat) (d : DegreeDict) (db : DB) : DB :=
  { db with
      degrees := db.degrees.map (fun r =>
        if r.id == degree_id then
          { r with
              school := sqlCoalesce r.school d.school,
              degree_type := sqlCoalesce r.degree_type d.degree_type,
              start_year := sqlCoalesce r.start_year d.start_year,
              end_year := sqlCoalesce r.end_year d.end_year }
        else r) }

/-- database.py update_degree: when the alum owns exactly one degree that one
is selected, otherwise the first row matching the incoming degree type; a
missing selection falls back to insert_degree, a found one is
coalesce-updated. -/
def update_degree (alumni_id : Nat) (d : DegreeDict) (db : DB) : DB :=
  let count := (db.degrees.filter (fun r => r.alumni_id == alumni_id)).length
  let rows :=
    if count = 1 then db.degrees.filter (fun r => r.alumni_id == alumni_id)
    else db.degrees.filter (fun r =>
      r.alumni_id == alumni_id && sqlEq r.degree_type d.degree_type)
  match rows.head? with
  | none => (insert_degree alumni_id d db).1
  | some row => apply_degree_update row.id d db

/-- database.py find_company_by_name: ids of companies whose lower-cased name
equals the lower-cased argument. -/
def find_company_by_name (company_name : String) (db : DB) : List Nat :=
  (db.companies.filter (fun c =>
    c.name.map str_lower == some (str_lower company_name))).map (fun c => c.id)

/-- database.py find_company_by_cik: id of the first company with the given
cik, if any. -/
def find_company_by_cik (cik : String) (db : DB) : Option Nat :=
  ((db.companies.filter (fun c => c.cik == some cik)).map (fun c => c.id)).head?

/-- database.py insert_or_get_company: null name yields no id; otherwise the
name is lower-cased, an existing company is reused, else a row is inserted
(the cik is dropped when its length is not 10). -/
def insert_or_get_company (company_name : Option String)
    (company_cik : Option String) (db : DB) : DB × Option Nat :=
  match company_name with
  | none => (db, none)
  | some cn0 =>
      let cn := str_lower cn0
      match (find_company_by_name cn db).head? with
      | some cid => (db, some cid)
      | none =>
          let cik :=
            match company_cik with
            | some k => if k ≠ "" ∧ k.length ≠ 10 then none else some k
            | none => none
          ({ db with
              companies := db.companies ++ [⟨db.next_company_id, some cn, cik⟩],
              next_company_id := db.next_company_id + 1 },
            some db.next_company_id)

/-- The employment payload dict read by the employment functions; the year
fields arrive as strings from the delegated extraction. -/
structure EmploymentDict where
  company_name : Option String
  year_start : Option String
  year_end : Option String
  compensation : Option String
  location : Option String
deriving DecidableEq, Repr

/-- database.py clean_employment_years: map present to the current year, the
string null to NULL, and parse the remaining strings as integers (falling to
NULL on failure). -/
def clean_employment_years (current_year : Int)
    (year_start year_end : Option String) : Option Int × Option Int :=
  let ye : Option Int :=
    if year_end = some "present" then some current_year
    else if year_end = some "null" then none
    else year_end.bind str_to_int?
  let ys : Option Int :=
    if year_start = some "null" then none
    else year_start.bind str_to_int?
  (ys, ye)

/-- database.py alumni_worked_at: whether an Employment_History row exists
for the alum and the lower-cased company name (a null name is never
attached). -/
def alumni_worked_at (alumni_id : Nat) (company_name : Option String)
    (db : DB) : Bool :=
  match company_name with
  | none => false
  | some cn0 =>
      decide (0 < (db.employment.countP (fun r =>
        r.alumni_id == alumni_id && r.company_name == some (str_lower cn0))))

/-- database.py insert_employment_history: resolve or create the company,
then INSERT ... ON CONFLICT (alumni_id, company_id) DO NOTHING; a null
company name aborts the operation. -/
def insert_employment_history (alumni_id : Nat) (d : EmploymentDict)
    (current_year : Int) (db : DB) : DB :=
  match d.company_name with
  | none => db
  | some cn0 =>
      let cn := str_lower cn0
      let yrs := clean_employment_years current_year d.year_start d.year_end
      let res := insert_or_get_company (some cn) none db
      let db1 := res.1
      if db1.employment.any (fun r =>
          r.alumni_id == alumni_id && r.company_id == res.2) then db1
      else
        { db1 with
            employment := db1.employment ++
              [⟨alumni_id, res.2, some cn, yrs.1, yrs.2,
                d.location, d.compensation⟩] }

/-- database.py update_employment_history: resolve or create the company,
then coalesce-update every Employment_History row matching the alum and the
lower-cased company name; a null company name aborts the operation. -/
def update_employment_history (alumni_id : Nat) (d : EmploymentDict)
    (current_year : Int) (db : DB) : DB :=
  match d.company_name with
  | none => db
  | some cn0 =>
      let cn := str_lower cn0
      let yrs := clean_employment_years current_year d.year_start d.year_end
      let res := insert_or_get_company (some cn) none db
      let db1 := res.1
      { db1 with
          employment := db1.employment.map (fun r =>
            if r.alumni_id == alumni_id && r.company_name == some cn then
              { r with
                  company_id := sqlCoalesce r.company_id res.2,
                  company_name := sqlCoalesce r.company_name (some cn),
                  year_start := sqlCoalesce r.year_start yrs.1,
                  year_end := sqlCoalesce r.year_end yrs.2,
                  location := sqlCoalesce r.location d.location,
                  compensation := sqlCoalesce r.compensation d.compensation }
            else r) }

/-- The employment dispatch of test_fakes.py process_person_matches: update
when the alum already worked at the company, insert otherwise. -/
def process_employment_claim (alumni_id : Nat) (d : EmploymentDict)
    (current_year : Int) (db : DB) : DB :=
  if alumni_worked_at alumni_id d.company_name db then
    update_employment_history alumni_id d current_year db
  else
    insert_employment_history alumni_id d current_year db

/-- database.py insert_filing: resolve the company by cik first, then by
name, and append a Filings row. -/
def insert_filing (alumni_id : Nat) (file_link : String)
    (company_name company_cik : Option String) (text_extracted : String)
    (filing_date : Option String) (db : DB) : DB :=
  let cid0 : Option Nat :=
    match company_cik with
    | some k => if k = "" then none else find_company_by_cik k db
    | none => none
  let step : DB × Option Nat :=
    match cid0 with
    | some cid => (db, some cid)
    | none =>
        match company_name with
        | some n => insert_or_get_company (some (str_lower n)) none db
        | none => (db, none)
  { step.1 with
      filings := step.1.filings ++
        [⟨alumni_id, file_link, step.2, filing_date, some text_extracted⟩] }

/-- database.py update_filing: resolve the company, read the stored text of
the first row for (alumni_id, link), newline-concatenate the new text onto
it and rewrite every matching row; note the SQL is
COALESCE(incoming, stored) for company_id and date, so a non-null incoming
value overwrites the stored one. -/
def update_filing (alumni_id : Nat) (file_link : String)
    (company_name company_cik : Option String) (text_extracted : String)
    (filing_date : Option String) (db : DB) : DB :=
  let cid0 : Option Nat :=
    match company_cik with
    | some k => if k = "" then none else find_company_by_cik k db
    | none => none
  let step : DB × Option Nat :=
    match cid0 with
    | some cid => (db, some cid)
    | none =>
        match company_name with
        | some n => insert_or_get_company (some (str_lower n)) none db
        | none => (db, none)
  let db1 := step.1
  let existing :=
    ((db1.filings.filter (fun f =>
      f.alumni_id == alumni_id && f.link == file_link)).map
        (fun f => f.text_extracted)).head?
  let existing_text : Option String :=
    match existing with
    | some t => t
    | none => none
  let new_text :=
    match existing_text with
    | some s => if s = "" then text_extracted else s ++ "\n" ++ text_extracted
    | none => text_extracted
  { db1 with
      filings := db1.filings.map (fun f =>
        if f.alumni_id == alumni_id && f.link == file_link then
          { f with
              company_id := sqlCoalesce step.2 f.company_id,
              date := sqlCoalesce filing_date f.date,
              text_extracted := some new_text }
        else f) }

/-- One row of the SQLite filings cache (cache.py). -/
structure CacheEntry where
  accession_number : String
  content : String
  download_timestamp : Int
  file_size : Nat
deriving DecidableEq, Repr

/-- The cache backing store; the accession number is the primary key, so the
operations keep at most one entry per key. -/
abbrev CacheStore := List CacheEntry

/-- cache.py FilingCache._is_expired: strictly older than the ttl. -/
def cache_is_expired (ttl_seconds current_time timestamp : Int) : Bool :=
  current_time - timestamp > ttl_seconds

/-- cache.py FilingCache.get: fetch the row for the accession number; an
expired row is deleted and absent is returned, otherwise the stored content
is returned.  The second component is the store after the call. -/
def cache_get (ttl_seconds current_time : Int) (store : CacheStore)
    (accession_number : String) : Option String × CacheStore :=
  match store.find? (fun e => e.accession_number == accession_number) with
  | none => (none, store)
  | some e =>
      if cache_is_expired ttl_seconds current_time e.download_timestamp then
        (none, store.filter (fun e => !(e.accession_number == accession_number)))
      else (some e.content, store)

/-- cache.py FilingCache.set: INSERT OR REPLACE the entry for the key. -/
def cache_set (current_time : Int) (store : CacheStore)
    (accession_number content : String) : CacheStore :=
  store.filter (fun e => !(e.accession_number == accession_number)) ++
    [⟨accession_number, content, current_time, content.length⟩]

/-- cache.py FilingCache.has: defined as get returning a value; it inherits
the read-triggered eviction of get.  The second component is the store after
the call. -/
def cache_has (ttl_seconds current_time : Int) (store : CacheStore)
    (accession_number : String) : Bool × CacheStore :=
  let res := cache_get ttl_seconds current_time store accession_number
  (res.1.isSome, res.2)

/-- The SQL aggregate of cache.py FilingCache.get_stats (the derived
floating-point MB and day roundings are presentation only and are not
modelled). -/
structure CacheStats where
  total_entries : Nat
  total_size_bytes : Nat
  oldest_timestamp : Option Int
deriving DecidableEq, Repr

/-- cache.py FilingCache.get_stats: COUNT, SUM of sizes and MIN timestamp
over the store. -/
def cache_get_stats (store : CacheStore) : CacheStats :=
  { total_entries := store.length,
    total_size_bytes := (store.map (fun e => e.file_size)).sum,
    oldest_timestamp := (store.map (fun e => e.download_timestamp)).min? }

/-- affiliation_search.py AffiliationMatch (the filing_info metadata map is
an opaque payload not read by the deduplicator). -/
structure AffiliationMatch where
  person_name : String
  affiliation_type : String
  context : String
  confidence : String
deriving DecidableEq, Repr

/-- The key built by deduplicate_matches: lower-cased stripped person name
and lower-cased stripped first 100 characters of the context. -/
def dedup_key (m : AffiliationMatch) : String × String :=
  (str_strip (str_lower m.person_name),
    str_strip (str_lower (str_take 100 m.context)))

/-- The loop of affiliation_search.py deduplicate_matches, carrying the seen
set. -/
def dedup_go (seen : List (String × String)) :
    List AffiliationMatch → List AffiliationMatch
  | [] => []
  | m :: ms =>
      if dedup_key m ∈ seen then dedup_go seen ms
      else m :: dedup_go (dedup_key m :: seen) ms

/-- affiliation_search.py deduplicate_matches: keep the first match per
key. -/
def deduplicate_matches (ms : List AffiliationMatch) :
    List AffiliationMatch :=
  dedup_go [] ms

/-- The key named by the specification (no stripping): lower-cased person
name and lower-cased first 100 characters of the context. -/
def spec_dedup_key (m : AffiliationMatch) : String × String :=
  (str_lower m.person_name, str_lower (str_take 100 m.context))

/-- One person dict of the delegated extraction, as read by test_fakes.py
reconcile_person_matches (only name, reconsider and the attached matching
text are consulted). -/
structure PersonDict where
  name : String
  reconsider : Option String
  matching_text : Option String
deriving DecidableEq, Repr

/-- Whether one list of characters occurs contiguously at the head of
another. -/
def chars_start_with : List Char → List Char → Bool
  | [], _ => true
  | _ :: _, [] => false
  | p :: ps, c :: cs => p == c && chars_start_with ps cs

/-- Whether one list of characters occurs contiguously inside another
(Python substring containment). -/
def chars_contain (pat : List Char) : List Char → Bool
  | [] => chars_start_with pat []
  | c :: cs => chars_start_with pat (c :: cs) || chars_contain pat cs

/-- The title markers of test_fakes.py reconcile_person_matches. -/
def person_titles : List String := ["Mr.", "Ms.", "Mrs.", "Dr."]

/-- Whether any title marker occurs inside the name (Python: any title in
name). -/
def name_is_titled (name : String) : Bool :=
  person_titles.any (fun t => chars_contain t.toList name.toList)

/-- Python name.split()[-1]: last whitespace-separated word of the name (the
empty string models the Python IndexError on an all-whitespace name, which
the pipeline never produces). -/
def name_last_word (name : String) : String :=
  (str_split_ws name).getLastD ""

/-- The accumulator of the first pass of reconcile_person_matches. -/
structure ReconcileState where
  person_matches : List PersonDict
  title_matches : List PersonDict
  title_names_set : List String
  person_name_set : List String
  last_name_set : List String
deriving DecidableEq, Repr

/-- One person of the first pass of test_fakes.py reconcile_person_matches:
skip unconfirmed claims, collect titled claims once per exact name, collect
bare claims once per exact name while recording their last names. -/
def reconcile_step (matching_text : String) (st : ReconcileState)
    (p0 : PersonDict) : ReconcileState :=
  let p := { p0 with matching_text := some matching_text }
  if p.reconsider ≠ some "Y" then st
  else if name_is_titled p.name then
    if p.name ∈ st.title_names_set then st
    else { st with
            title_names_set := p.name :: st.title_names_set,
            title_matches := st.title_matches ++ [p] }
  else
    if p.name ∈ st.person_name_set then st
    else { st with
            person_name_set := p.name :: st.person_name_set,
            last_name_set := name_last_word p.name :: st.last_name_set,
            person_matches := st.person_matches ++ [p] }

/-- The first pass of reconcile_person_matches over every matching text (the
extraction call, json fence stripping and json parsing are the external
boundary, modelled by the extract argument). -/
def reconcile_pass (extract : String → List PersonDict)
    (texts : List String) : ReconcileState :=
  texts.foldl (fun st t => (extract t).foldl (reconcile_step t) st)
    ⟨[], [], [], [], []⟩

/-- The second pass of test_fakes.py reconcile_person_matches: keep a titled
claim only when its last name is not yet in the last-name set, and record
the last name of every kept titled claim. -/
def merge_titled (last_names : List String) :
    List PersonDict → List PersonDict
  | [] => []
  | t :: rest =>
      if name_last_word t.name ∈ last_names then merge_titled last_names rest
      else t :: merge_titled (name_last_word t.name :: last_names) rest

/-- test_fakes.py reconcile_person_matches: bare-name claims followed by the
retained titled claims. -/
def reconcile_person_matches (texts : List String)
    (extract : String → List PersonDict) : List PersonDict :=
  let st := reconcile_pass extract texts
  st.person_matches ++ merge_titled st.last_name_set st.title_matches

/-- One token of the heading regular expressions of parser.py (the concrete
patterns use only case-insensitive literals, one-or-more and zero-or-more
character classes, and an optional single character; in all of them the
character following a class is outside the class, so greedy maximal-munch
matching coincides with Python backtracking semantics). -/
inductive RTok where
  | lit : String → RTok
  | classPlus : (Char → Bool) → RTok
  | classStar : (Char → Bool) → RTok
  | optChar : Char → RTok

/-- A pattern is an ordered list of alternatives, each a token sequence
(Python alternation prefers the earlier alternative). -/
abbrev RPat := List (List RTok)

/-- Match a case-insensitive literal at the head of the input, returning the
remaining input. -/
def match_lit : List Char → List Char → Option (List Char)
  | [], cs => some cs
  | _ :: _, [] => none
  | p :: ps, c :: cs =>
      if c.toLower == p.toLower then match_lit ps cs else none

/-- Match one token at the head of the input. -/
def match_tok : RTok → List Char → Option (List Char)
  | .lit s, cs => match_lit s.toList cs
  | .classPlus _, [] => none
  | .classPlus p, c :: rest => if p c then some (rest.dropWhile p) else none
  | .classStar p, cs => some (cs.dropWhile p)
  | .optChar _, [] => some []
  | .optChar ch, c :: rest =>
      if c.toLower == ch.toLower then some rest else some (c :: rest)

/-- Match a token sequence at the head of the input. -/
def match_toks : List RTok → List Char → Option (List Char)
  | [], cs => some cs
  | t :: ts, cs => (match_tok t cs).bind (match_toks ts)

/-- Match the first alternative that succeeds at the head of the input. -/
def match_alts : RPat → List Char → Option (List Char)
  | [], _ => none
  | a :: rest, cs =>
      match match_toks a cs with
      | some rem => some rem
      | none => match_alts rest cs

/-- re.finditer: scan left to right, emit the (start, stop) offsets of each
match and continue after its end (every concrete pattern consumes at least
one character; the fuel is the input length). -/
def finditer_go (pat : RPat) : Nat → List Char → Nat → List (Nat × Nat)
  | 0, _, _ => []
  | _ + 1, [], _ => []
  | fuel + 1, c :: rest, pos =>
      match match_alts pat (c :: rest) with
      | some rem =>
          let k := (c :: rest).length - rem.length
          let k1 := if k = 0 then 1 else k
          (pos, pos + k) ::
            finditer_go pat fuel ((c :: rest).drop k1) (pos + k1)
      | none => finditer_go pat fuel rest (pos + 1)

/-- All matches of a pattern over the input, as (start, stop) offsets. -/
def finditer (pat : RPat) (cs : List Char) : List (Nat × Nat) :=
  finditer_go pat cs.length cs 0

/-- re.search: offsets of the first match, scanning left to right. -/
def search_first (pat : RPat) : List Char → Nat → Option (Nat × Nat)
  | [], _ => none
  | c :: rest, pos =>
      match match_alts pat (c :: rest) with
      | some rem => some (pos, pos + ((c :: rest).length - rem.length))
      | none => search_first pat rest (pos + 1)

/-- A whitespace character (Python regex class backslash-s, restricted to
the ASCII whitespace occurring in filings). -/
def ws_char (c : Char) : Bool := c.isWhitespace

/-- A decimal digit (Python regex class backslash-d). -/
def digit_char (c : Char) : Bool := c.isDigit

/-- The class [,\s] of the first heading pattern. -/
def comma_ws_char (c : Char) : Bool := c == ',' || c.isWhitespace

/-- The class [\s\-] of the proposal heading pattern. -/
def ws_dash_char (c : Char) : Bool := c == '-' || c.isWhitespace

/-- The class [IVX] under re.IGNORECASE. -/
def roman_char (c : Char) : Bool :=
  c.toLower == 'i' || c.toLower == 'v' || c.toLower == 'x'

/-- The five heading patterns of parser.py find_biographical_sections with
their section names. -/
def bio_patterns : List (RPat × String) :=
  [([[RTok.lit "Item", RTok.classPlus ws_char, RTok.lit "10",
      RTok.optChar '.', RTok.classPlus ws_char, RTok.lit "Directors",
      RTok.classPlus comma_ws_char, RTok.lit "Executive Officers"]],
    "Item 10: Directors & Officers"),
   ([[RTok.lit "BOARD OF DIRECTORS"],
     [RTok.lit "DIRECTORS AND EXECUTIVE OFFICERS"]],
    "Directors & Officers"),
   ([[RTok.lit "EXECUTIVE OFFICERS"], [RTok.lit "MANAGEMENT"]],
    "Executive Officers"),
   ([[RTok.lit "BIOGRAPHICAL INFORMATION"], [RTok.lit "BIOGRAPHIES"]],
    "Biographies"),
   ([[RTok.lit "PROPOSAL", RTok.classPlus ws_char,
      RTok.classPlus digit_char, RTok.classPlus ws_dash_char,
      RTok.lit "ELECTION OF DIRECTORS"]],
    "Election of Directors")]

/-- The next-major-section pattern of parser.py find_biographical_sections
(Item and ITEM collapse under re.IGNORECASE but are kept as in the
source). -/
def next_section_pat : RPat :=
  [[RTok.lit "\n", RTok.classStar ws_char, RTok.lit "Item",
    RTok.classPlus ws_char, RTok.classPlus digit_char],
   [RTok.lit "\n", RTok.classStar ws_char, RTok.lit "ITEM",
    RTok.classPlus ws_char, RTok.classPlus digit_char],
   [RTok.lit "\n", RTok.classStar ws_char, RTok.lit "PART",
    RTok.classPlus ws_char, RTok.classPlus roman_char]]

/-- A candidate biographical section of parser.py. -/
structure BioSectionRec where
  section_name : String
  content : String
  start_position : Nat
deriving DecidableEq, Repr

/-- The match loop body of find_biographical_sections: window of up to 20000
characters, truncated at the next major section heading found after the
first 100 characters, stripped, and kept only above 200 characters. -/
def sections_for (cs : List Char) (pat : RPat) (nm : String) :
    List BioSectionRec :=
  (finditer pat cs).filterMap (fun se =>
    let s := se.1
    let end0 := min (s + 20000) cs.length
    let window := (cs.drop (s + 100)).take (end0 - (s + 100))
    let endF :=
      match search_first next_section_pat window 0 with
      | some ns => s + 100 + ns.1
      | none => end0
    let content := String.mk (chars_strip ((cs.drop s).take (endF - s)))
    if 200 < content.length then some ⟨nm, content, s⟩ else none)

/-- Stable insertion of a section into a list sorted by start position
(Python sorted is stable; an earlier-listed section precedes one with an
equal start). -/
def insert_by_pos (x : BioSectionRec) :
    List BioSectionRec → List BioSectionRec
  | [] => [x]
  | y :: ys =>
      if y.start_position < x.start_position then y :: insert_by_pos x ys
      else x :: y :: ys

/-- Stable sort of sections by start position. -/
def sort_by_pos (l : List BioSectionRec) : List BioSectionRec :=
  l.foldr insert_by_pos []

/-- The overlap deduplication of find_biographical_sections: skip a section
whose start lies within 100 positions of an already accepted start. -/
def dedup_sections (accepted : List Nat) :
    List BioSectionRec → List BioSectionRec
  | [] => []
  | s :: rest =>
      if accepted.any (fun p =>
          decide (p - 100 ≤ s.start_position) &&
          decide (s.start_position < p + 100)) then
        dedup_sections accepted rest
      else s :: dedup_sections (s.start_position :: accepted) rest

/-- parser.py find_biographical_sections on the plain-text rendering of the
document: collect the windows of every heading pattern in pattern order,
then deduplicate overlapping windows sorted by start position. -/
def find_biographical_sections (document_text : String) :
    List BioSectionRec :=
  let cs := document_text.toList
  let sections :=
    (bio_patterns.map (fun pn => sections_for cs pn.1 pn.2)).flatten
  dedup_sections [] (sort_by_pos sections)

/-- Number of Employment_History rows of one alum bearing one stored company
name (the stored names are lower-cased at insertion). -/
def emp_pair_count (alumni_id : Nat) (cn : String) (db : DB) : Nat :=
  db.employment.countP (fun r =>
    r.alumni_id == alumni_id && r.company_name == some cn)

/-- The uniqueness invariant of the specification: at most one
Employment_History row per alum and company name. -/
def emp_unique_inv (db : DB) : Prop :=
  ∀ alumni_id cn, emp_pair_count alumni_id cn db ≤ 1

/-- A delegated-extraction stub returning two confirmed title-qualified
claims that share a last name (used to exercise the titled-claim merge). -/
def c6_extract : String → List PersonDict :=
  fun _ => [⟨"Mr. Smith", some "Y", none⟩, ⟨"Dr. Smith", some "Y", none⟩]

/-- Helper: a guarded elementwise update commutes with find? when the guard
is preserved by the update. -/
theorem find?_map_guard {α : Type} (p : α → Bool) (g : α → α)
    (hg : ∀ r, p r = true → p (g r) = true) (l : List α) :
    (l.map (fun r => if p r then g r else r)).find? p = (l.find? p).map g := by
  induction l with
  | nil => rfl
  | cons h t ih =>
      by_cases hp : p h = true
      · simp [List.find?_cons, hp, hg h hp]
      · simp only [List.map_cons, if_neg hp, List.find?_cons]
        rw [Bool.eq_false_iff.mpr hp]
        exact ih

/-- Helper: a filter returning a singleton makes find? return its element. -/
theorem find?_of_filter_singleton {α : Type} (p : α → Bool) (l : List α)
    (a : α) (h : l.filter p = [a]) : l.find? p = some a := by
  induction l with
  | nil => simp at h
  | cons x t ih =>
      by_cases hp : p x = true
      · rw [List.filter_cons_of_pos hp] at h
        obtain ⟨rfl, -⟩ := List.cons.inj h
        simp [List.find?_cons, hp]
      · rw [List.filter_cons_of_neg hp] at h
        simp only [List.find?_cons]
        rw [Bool.eq_false_iff.mpr hp]
        exact ih h

/-- Helper: length of the rows kept by a negated filter plus the count of
the positive rows is the total length. -/
theorem length_filter_not_add_countP {α : Type} (p : α → Bool) (l : List α) :
    (l.filter (fun a => !(p a))).length + l.countP p = l.length := by
  induction l with
  | nil => rfl
  | cons x t ih =>
      by_cases hp : p x = true
      · rw [List.filter_cons_of_neg (by simp [hp]),
          List.countP_cons_of_pos _ _ hp, List.length_cons, ← ih]
        omega
      · rw [List.filter_cons_of_pos (by simp [hp]),
          List.countP_cons_of_neg _ _ hp, List.length_cons, List.length_cons,
          ← ih]
        omega

/-- Claim C7: a cache entry is expired exactly when now minus fetch time is
strictly greater than the ttl; get on an expired entry deletes the entry and
returns absent, get on a present non-expired entry returns the stored
content unchanged. -/
theorem c7_cache_get_expiry (ttl now : Int) (store : CacheStore)
    (acc : String) (e : CacheEntry)
    (hfind : store.find? (fun x => x.accession_number == acc) = some e) :
    (cache_is_expired ttl now e.download_timestamp = true ↔
      now - e.download_timestamp > ttl) ∧
    (now - e.download_timestamp > ttl →
      cache_get ttl now store acc =
        (none, store.filter (fun x => !(x.accession_number == acc))) ∧
      ∀ x ∈ (cache_get ttl now store acc).2, x.accession_number ≠ acc) ∧
    (¬ now - e.download_timestamp > ttl →
      cache_get ttl now store acc = (some e.content, store)) := by
  refine ⟨by simp [cache_is_expired], ?_, ?_⟩
  · intro hexp
    have heq : cache_get ttl now store acc =
        (none, store.filter (fun x => !(x.accession_number == acc))) := by
      simp only [cache_get, hfind]
      rw [if_pos (by simp [cache_is_expired, hexp])]
    refine ⟨heq, ?_⟩
    intro x hx
    rw [heq] at hx
    have := (List.mem_filter.mp hx).2
    simpa using this
  · intro hfresh
    simp only [cache_get, hfind]
    rw [if_neg (by simp [cache_is_expired]; omega)]

/-- Witness for C7 at a concrete store: with ttl 100 and fetch time 100, the
entry is evicted at time 250 and still served at time 200. -/
theorem c7_cache_get_expiry_witness :
    cache_get 100 250 [⟨"acc", "body", 100, 4⟩] "acc" = (none, []) ∧
    cache_get 100 200 [⟨"acc", "body", 100, 4⟩] "acc" =
      (some "body", [⟨"acc", "body", 100, 4⟩]) := by
  have h1 := c7_cache_get_expiry 100 250 [⟨"acc", "body", 100, 4⟩] "acc"
    ⟨"acc", "body", 100, 4⟩ (by decide)
  have h2 := c7_cache_get_expiry 100 200 [⟨"acc", "body", 100, 4⟩] "acc"
    ⟨"acc", "body", 100, 4⟩ (by decide)
  refine ⟨?_, h2.2.2 (by decide)⟩
  have := (h1.2.1 (by decide)).1
  simpa using this

/-- Claim C10: has is get returning a value, so on an expired entry it
returns false, deletes the entry, and a subsequent stats no longer counts
it. -/
theorem c10_cache_has_evicts (ttl now : Int) (store : CacheStore)
    (acc : String) (e : CacheEntry)
    (hfind : store.find? (fun x => x.accession_number == acc) = some e)
    (hexp : now - e.download_timestamp > ttl) :
    (cache_has ttl now store acc).1 = false ∧
    (∀ x ∈ (cache_has ttl now store acc).2, x.accession_number ≠ acc) ∧
    (cache_get_stats (cache_has ttl now store acc).2).total_entries =
      store.length - store.countP (fun x => x.accession_number == acc) ∧
    0 < store.countP (fun x => x.accession_number == acc) ∧
    (cache_get_stats (cache_has ttl now store acc).2).total_entries <
      (cache_get_stats store).total_entries := by
  have hget : cache_get ttl now store acc =
      (none, store.filter (fun x => !(x.accession_number == acc))) := by
    simp only [cache_get, hfind]
    rw [if_pos (by simp [cache_is_expired, hexp])]
  have hpe := List.find?_some hfind
  have hcount : 0 < store.countP (fun x => x.accession_number == acc) :=
    List.countP_pos_iff.mpr ⟨e, List.mem_of_find?_eq_some hfind, hpe⟩
  have hlen := length_filter_not_add_countP
    (fun x => x.accession_number == acc) store
  refine ⟨?_, ?_, ?_, hcount, ?_⟩
  · simp [cache_has, hget]
  · intro x hx
    simp only [cache_has, hget] at hx
    have := (List.mem_filter.mp hx).2
    simpa using this
  · simp only [cache_has, hget, cache_get_stats]
    omega
  · simp only [cache_has, hget, cache_get_stats]
    omega

/-- Witness for C10 at a concrete store: after has on the expired entry the
store is empty and stats counts zero entries. -/
theorem c10_cache_has_evicts_witness :
    (cache_has 100 250 [⟨"acc", "body", 100, 4⟩] "acc").1 = false ∧
    (cache_get_stats (cache_has 100 250 [⟨"acc", "body", 100, 4⟩] "acc").2).total_entries = 0 ∧
    (cache_get_stats [(⟨"acc", "body", 100, 4⟩ : CacheEntry)]).total_entries = 1 := by
  have h := c10_cache_has_evicts 100 250 [⟨"acc", "body", 100, 4⟩] "acc"
    ⟨"acc", "body", 100, 4⟩ (by decide) (by decide)
  refine ⟨h.1, ?_, by decide⟩
  have := h.2.2.1
  simpa using this

/-- Claim C1: when an incoming claim matches a roster record by name, the
reconciler merges in place (no new Alumni row) whenever either birth year is
absent or they differ by at most 2, and otherwise inserts a brand-new Alumni
row while leaving the original row completely unchanged. -/
theorem c1_upsert_merge_or_branch (db : DB) (ret : AlumReturn) (aid : Nat)
    (rest : List Nat) (row : AlumniRow)
    (hmatch : alumni_match ret.name db = aid :: rest)
    (hrow : db.alumni.find? (fun r => r.id == aid) = some row) :
    ((∀ y ey, ret.year_of_birth = some y → row.year_of_birth = some ey →
        (ey - y).natAbs ≤ 2) →
      upsert_alumni ret db = some (apply_alumni_update aid ret db, aid) ∧
      (apply_alumni_update aid ret db).alumni.length = db.alumni.length) ∧
    (∀ y ey, ret.year_of_birth = some y → row.year_of_birth = some ey →
      2 < (ey - y).natAbs →
      upsert_alumni ret db = some ((insert_alumni ret db).1, aid) ∧
      (insert_alumni ret db).1.alumni = db.alumni ++
        [⟨db.next_alumni_id, none, ret.year_of_birth,
          clean_relationship ret.relationship⟩] ∧
      (insert_alumni ret db).1.alumni.find? (fun r => r.id == aid) =
        some row) := by
  have hlen : (apply_alumni_update aid ret db).alumni.length =
      db.alumni.length := by
    simp [apply_alumni_update]
  constructor
  · intro hmerge
    refine ⟨?_, hlen⟩
    simp only [upsert_alumni, hmatch]
    cases hyob : ret.year_of_birth with
    | none => simp [update_alumni, hyob]
    | some y =>
        simp only [update_alumni, hyob, hrow]
        cases hey : row.year_of_birth with
        | none => simp
        | some ey =>
            have hle := hmerge y ey hyob hey
            have hcond : ¬ ((ey - y).natAbs > 2) := by omega
            simp [hcond]
  · intro y ey hy hey hgt
    refine ⟨?_, ?_, ?_⟩
    · simp only [upsert_alumni, hmatch, update_alumni, hy, hrow, hey]
      rw [if_pos (by omega)]
    · simp [insert_alumni, search_buid]
    · have : (insert_alumni ret db).1.alumni = db.alumni ++
          [⟨db.next_alumni_id, none, ret.year_of_birth,
            clean_relationship ret.relationship⟩] := by
        simp [insert_alumni, search_buid]
      rw [this, List.find?_append, hrow]
      rfl

/-- Witness for C1 realizing the specification scenario: against a roster
holding John Smith born 1990, a 1991 claim merges in place (one row) and a
2000 claim branches into a second row leaving the first unchanged. -/
theorem c1_upsert_merge_or_branch_witness :
    upsert_alumni ⟨some "John Smith", some 1991, none⟩
        ⟨[⟨1, none, some 1990, some "student"⟩], [⟨1, "John Smith"⟩],
          [], [], [], [], 2, 1, 1⟩ =
      some (⟨[⟨1, none, some 1990, some "student"⟩], [⟨1, "John Smith"⟩],
        [], [], [], [], 2, 1, 1⟩, 1) ∧
    upsert_alumni ⟨some "John Smith", some 2000, none⟩
        ⟨[⟨1, none, some 1990, some "student"⟩], [⟨1, "John Smith"⟩],
          [], [], [], [], 2, 1, 1⟩ =
      some (⟨[⟨1, none, some 1990, some "student"⟩, ⟨2, none, some 2000, none⟩],
        [⟨1, "John Smith"⟩], [], [], [], [], 3, 1, 1⟩, 1) := by
  have h1 := c1_upsert_merge_or_branch
    ⟨[⟨1, none, some 1990, some "student"⟩], [⟨1, "John Smith"⟩],
      [], [], [], [], 2, 1, 1⟩
    ⟨some "John Smith", some 1991, none⟩ 1 [] ⟨1, none, some 1990, some "student"⟩
    (by decide) (by decide)
  have h2 := c1_upsert_merge_or_branch
    ⟨[⟨1, none, some 1990, some "student"⟩], [⟨1, "John Smith"⟩],
      [], [], [], [], 2, 1, 1⟩
    ⟨some "John Smith", some 2000, none⟩ 1 [] ⟨1, none, some 1990, some "student"⟩
    (by decide) (by decide)
  constructor
  · have hm := (h1.1 ?_).1
    · rw [hm]
      decide
    · intro y ey hy hey
      obtain rfl := Option.some.inj hy
      obtain rfl := Option.some.inj hey
      decide
  · have hb := h2.2 2000 1990 rfl rfl (by decide)
    rw [hb.1]
    decide

/-- Helper: resolving or creating a company never touches the employment
table. -/
theorem insert_or_get_company_employment (company_name company_cik : Option String)
    (db : DB) :
    (insert_or_get_company company_name company_cik db).1.employment =
      db.employment := by
  cases company_name with
  | none => rfl
  | some cn0 =>
      simp only [insert_or_get_company]
      cases (find_company_by_name (str_lower cn0) db).head? <;> rfl

/-- Helper: resolving or creating a company never touches the filings
table. -/
theorem insert_or_get_company_filings (company_name company_cik : Option String)
    (db : DB) :
    (insert_or_get_company company_name company_cik db).1.filings =
      db.filings := by
  cases company_name with
  | none => rfl
  | some cn0 =>
      simp only [insert_or_get_company]
      cases (find_company_by_name (str_lower cn0) db).head? <;> rfl

/-- Claim C2: every reconciler merge (Alumni, Degree, Employment_History)
has coalesce semantics: a stored non-null field is preserved unchanged and a
currently-null field is filled from the incoming claim. -/
theorem c2_merges_are_coalesce :
    (∀ (α : Type) (b : Option α) (v : α), sqlCoalesce (some v) b = some v) ∧
    (∀ (α : Type) (b : Option α), sqlCoalesce none b = b) ∧
    (∀ (db : DB) (aid : Nat) (ret : AlumReturn) (row : AlumniRow),
      db.alumni.find? (fun r => r.id == aid) = some row →
      (apply_alumni_update aid ret db).alumni.find? (fun r => r.id == aid) =
        some { row with
          buid := sqlCoalesce row.buid (search_buid ret.name),
          year_of_birth := sqlCoalesce row.year_of_birth ret.year_of_birth,
          relationship_to_bu := sqlCoalesce row.relationship_to_bu
            (clean_relationship ret.relationship) }) ∧
    (∀ (db : DB) (did : Nat) (d : DegreeDict) (row : DegreeRow),
      db.degrees.find? (fun r => r.id == did) = some row →
      (apply_degree_update did d db).degrees.find? (fun r => r.id == did) =
        some { row with
          school := sqlCoalesce row.school d.school,
          degree_type := sqlCoalesce row.degree_type d.degree_type,
          start_year := sqlCoalesce row.start_year d.start_year,
          end_year := sqlCoalesce row.end_year d.end_year }) ∧
    (∀ (db : DB) (aid : Nat) (d : EmploymentDict) (cy : Int) (cn0 : String),
      d.company_name = some cn0 →
      ∀ (i : Nat) (row : EmploymentRow),
      db.employment[i]? = some row →
      (row.alumni_id == aid && row.company_name == some (str_lower cn0)) = true →
      (update_employment_history aid d cy db).employment[i]? = some
        { row with
          company_id := sqlCoalesce row.company_id
            (insert_or_get_company (some (str_lower cn0)) none db).2,
          company_name := sqlCoalesce row.company_name (some (str_lower cn0)),
          year_start := sqlCoalesce row.year_start
            (clean_employment_years cy d.year_start d.year_end).1,
          year_end := sqlCoalesce row.year_end
            (clean_employment_years cy d.year_start d.year_end).2,
          location := sqlCoalesce row.location d.location,
          compensation := sqlCoalesce row.compensation d.compensation }) := by
  refine ⟨fun α b v => rfl, fun α b => rfl, ?_, ?_, ?_⟩
  · intro db aid ret row hrow
    have h := find?_map_guard (fun r : AlumniRow => r.id == aid)
      (fun r => { r with
        buid := sqlCoalesce r.buid (search_buid ret.name),
        year_of_birth := sqlCoalesce r.year_of_birth ret.year_of_birth,
        relationship_to_bu := sqlCoalesce r.relationship_to_bu
          (clean_relationship ret.relationship) })
      (fun r hr => hr) db.alumni
    calc (apply_alumni_update aid ret db).alumni.find? (fun r => r.id == aid)
        = (db.alumni.find? (fun r => r.id == aid)).map _ := h
      _ = _ := by rw [hrow]; rfl
  · intro db did d row hrow
    have h := find?_map_guard (fun r : DegreeRow => r.id == did)
      (fun r => { r with
        school := sqlCoalesce r.school d.school,
        degree_type := sqlCoalesce r.degree_type d.degree_type,
        start_year := sqlCoalesce r.start_year d.start_year,
        end_year := sqlCoalesce r.end_year d.end_year })
      (fun r hr => hr) db.degrees
    calc (apply_degree_update did d db).degrees.find? (fun r => r.id == did)
        = (db.degrees.find? (fun r => r.id == did)).map _ := h
      _ = _ := by rw [hrow]; rfl
  · intro db aid d cy cn0 hcn i row hi hpred
    have hemp : (insert_or_get_company (some (str_lower cn0)) none db).1.employment =
        db.employment := insert_or_get_company_employment _ _ _
    simp only [update_employment_history, hcn, hemp]
    rw [List.getElem?_map, hi]
    simp [hpred]
    intro hcontra
    simp only [Bool.and_eq_true, beq_iff_eq] at hpred
    exact absurd hpred.2 (hcontra hpred.1)

/-- Witness for C2 at concrete rows: in each table the stored non-null
fields survive the merge and the null fields are filled from the claim. -/
theorem c2_merges_are_coalesce_witness :
    (apply_alumni_update 1 ⟨some "X", some 1991, some "professor"⟩
        ⟨[⟨1, none, some 1990, none⟩], [], [], [], [], [], 2, 1, 1⟩).alumni.find?
        (fun r => r.id == 1) =
      some ⟨1, none, some 1990, some "professor"⟩ ∧
    (apply_degree_update 5 ⟨none, some "JD", some 1995, some 1999⟩
        ⟨[], [], [⟨5, 1, some "School of Law", none, none, some 1998⟩],
          [], [], [], 1, 6, 1⟩).degrees.find?
        (fun r => r.id == 5) =
      some ⟨5, 1, some "School of Law", some "JD", some 1995, some 1998⟩ ∧
    (update_employment_history 1 ⟨some "Acme", none, some "2005", none, some "Boston"⟩
        2025 ⟨[], [], [], [],
          [⟨1, none, some "acme", some 2001, none, none, none⟩],
          [], 1, 1, 1⟩).employment[0]? =
      some ⟨1, some 1, some "acme", some 2001, some 2005, some "Boston", none⟩ := by
  have h1 := c2_merges_are_coalesce.2.2.1
    ⟨[⟨1, none, some 1990, none⟩], [], [], [], [], [], 2, 1, 1⟩ 1
    ⟨some "X", some 1991, some "professor"⟩ ⟨1, none, some 1990, none⟩
    (by decide)
  have h2 := c2_merges_are_coalesce.2.2.2.1
    ⟨[], [], [⟨5, 1, some "School of Law", none, none, some 1998⟩],
      [], [], [], 1, 6, 1⟩ 5
    ⟨none, some "JD", some 1995, some 1999⟩
    ⟨5, 1, some "School of Law", none, none, some 1998⟩ (by decide)
  have h3 := c2_merges_are_coalesce.2.2.2.2
    ⟨[], [], [], [], [⟨1, none, some "acme", some 2001, none, none, none⟩],
      [], 1, 1, 1⟩ 1
    ⟨some "Acme", none, some "2005", none, some "Boston"⟩ 2025 "Acme" rfl 0
    ⟨1, none, some "acme", some 2001, none, none, none⟩ (by decide) (by decide)
  exact ⟨h1.trans (by decide), h2.trans (by decide), h3.trans (by decide)⟩

/-- Claim C3: on subsequent degree evidence, a sole owned DegreeRecord is
coalesce-updated regardless of type; with several records the first one
matching the incoming type is the only one updated; with no type match a new
DegreeRecord is inserted and the existing rows are untouched. -/
theorem c3_update_degree_cases (db : DB) (aid : Nat) (d : DegreeDict) :
    (∀ row, db.degrees.filter (fun r => r.alumni_id == aid) = [row] →
      update_degree aid d db = apply_degree_update row.id d db ∧
      (apply_degree_update row.id d db).degrees.length = db.degrees.length) ∧
    (∀ row, 1 < (db.degrees.filter (fun r => r.alumni_id == aid)).length →
      (db.degrees.filter (fun r =>
        r.alumni_id == aid && sqlEq r.degree_type d.degree_type)).head? =
        some row →
      update_degree aid d db = apply_degree_update row.id d db ∧
      (apply_degree_update row.id d db).degrees.length = db.degrees.length ∧
      (∀ (i : Nat) (r : DegreeRow), db.degrees[i]? = some r →
        (r.id == row.id) = false →
        (apply_degree_update row.id d db).degrees[i]? = some r)) ∧
    ((db.degrees.filter (fun r => r.alumni_id == aid)).length ≠ 1 →
      db.degrees.filter (fun r =>
        r.alumni_id == aid && sqlEq r.degree_type d.degree_type) = [] →
      update_degree aid d db = (insert_degree aid d db).1 ∧
      (insert_degree aid d db).1.degrees = db.degrees ++
        [⟨db.next_degree_id, aid, d.school, d.degree_type,
          d.start_year, d.end_year⟩]) := by
  refine ⟨?_, ?_, ?_⟩
  · intro row hfilter
    have hlen : (apply_degree_update row.id d db).degrees.length =
        db.degrees.length := by simp [apply_degree_update]
    refine ⟨?_, hlen⟩
    simp only [update_degree, hfilter]
    rfl
  · intro row hcount hhead
    have hlen : (apply_degree_update row.id d db).degrees.length =
        db.degrees.length := by simp [apply_degree_update]
    refine ⟨?_, hlen, ?_⟩
    · simp only [update_degree]
      rw [if_neg (by omega), hhead]
    · intro i r hi hne
      simp only [apply_degree_update]
      rw [List.getElem?_map, hi]
      simp [hne]
      intro hcontra
      exact absurd hcontra (by simpa using hne)
  · intro hcount hfilter
    constructor
    · simp only [update_degree]
      rw [if_neg hcount, hfilter]
      rfl
    · rfl

/-- Witness for C3 at concrete rows: a sole degree of a different type is
updated in place, of two degrees only the type-matching one changes, and an
unmatched type inserts a third row leaving the others untouched. -/
theorem c3_update_degree_cases_witness :
    (update_degree 7 ⟨some "School of Law", some "JD", some 1995, none⟩
        ⟨[], [], [⟨1, 7, none, some "MBA", none, none⟩], [], [], [], 1, 2, 1⟩).degrees =
      [⟨1, 7, some "School of Law", some "MBA", some 1995, none⟩] ∧
    (update_degree 7 ⟨some "School of Law", some "JD", some 1998, none⟩
        ⟨[], [], [⟨1, 7, some "Questrom School of Business", some "MBA", none, none⟩,
          ⟨2, 7, none, some "JD", none, some 2001⟩], [], [], [], 1, 3, 1⟩).degrees =
      [⟨1, 7, some "Questrom School of Business", some "MBA", none, none⟩,
        ⟨2, 7, some "School of Law", some "JD", some 1998, some 2001⟩] ∧
    (update_degree 7 ⟨none, some "PhD", none, none⟩
        ⟨[], [], [⟨1, 7, some "Questrom School of Business", some "MBA", none, none⟩,
          ⟨2, 7, none, some "JD", none, some 2001⟩], [], [], [], 1, 3, 1⟩).degrees =
      [⟨1, 7, some "Questrom School of Business", some "MBA", none, none⟩,
        ⟨2, 7, none, some "JD", none, some 2001⟩,
        ⟨3, 7, none, some "PhD", none, none⟩] := by
  have h1 := (c3_update_degree_cases
    ⟨[], [], [⟨1, 7, none, some "MBA", none, none⟩], [], [], [], 1, 2, 1⟩ 7
    ⟨some "School of Law", some "JD", some 1995, none⟩).1
    ⟨1, 7, none, some "MBA", none, none⟩ (by decide)
  have h2 := (c3_update_degree_cases
    ⟨[], [], [⟨1, 7, some "Questrom School of Business", some "MBA", none, none⟩,
      ⟨2, 7, none, some "JD", none, some 2001⟩], [], [], [], 1, 3, 1⟩ 7
    ⟨some "School of Law", some "JD", some 1998, none⟩).2.1
    ⟨2, 7, none, some "JD", none, some 2001⟩ (by decide) (by decide)
  have h3 := (c3_update_degree_cases
    ⟨[], [], [⟨1, 7, some "Questrom School of Business", some "MBA", none, none⟩,
      ⟨2, 7, none, some "JD", none, some 2001⟩], [], [], [], 1, 3, 1⟩ 7
    ⟨none, some "PhD", none, none⟩).2.2 (by decide) (by decide)
  refine ⟨?_, ?_, ?_⟩
  · rw [h1.1]; decide
  · rw [h2.1]; decide
  · rw [h3.1, h3.2]; decide

/-- Helper: the employment UPDATE rewrites fields of matching rows but never
changes the (alumni_id, company_name) pair of any row, so every pair count
is preserved. -/
theorem update_employment_history_pair_count (db : DB) (aid : Nat)
    (d : EmploymentDict) (cy : Int) (a' : Nat) (cn' : String) :
    emp_pair_count a' cn' (update_employment_history aid d cy db) =
      emp_pair_count a' cn' db := by
  cases hcn : d.company_name with
  | none => simp [update_employment_history, hcn]
  | some cn0 =>
      have hemp := insert_or_get_company_employment (some (str_lower cn0)) none db
      simp only [update_employment_history, hcn, emp_pair_count, hemp]
      rw [List.countP_map]
      apply List.countP_congr
      intro r hr
      by_cases hc :
          (r.alumni_id == aid && r.company_name == some (str_lower cn0)) = true
      · have hand := (Bool.and_eq_true _ _).mp hc
        have haid : r.alumni_id = aid := beq_iff_eq.mp hand.1
        have hname : r.company_name = some (str_lower cn0) := beq_iff_eq.mp hand.2
        simp [Function.comp, haid, hname, sqlCoalesce]
      · simp [Function.comp, hc]

/-- Claim C4: processing employment claims keeps at most one
Employment_History row per (alum, company name) pair: the invariant is
preserved by every dispatch, the first claim for a pair inserts exactly one
row, and every later claim for the pair is routed to the coalesce update,
which fills null fields of matching rows and leaves all other rows
unchanged. -/
theorem c4_employment_uniqueness (db : DB) (aid : Nat) (d : EmploymentDict)
    (cy : Int) :
    (emp_unique_inv db → emp_unique_inv (process_employment_claim aid d cy db)) ∧
    (∀ cn0, d.company_name = some cn0 →
      db.employment.filter (fun r => r.alumni_id == aid) = [] →
      process_employment_claim aid d cy db =
        insert_employment_history aid d cy db ∧
      emp_pair_count aid (str_lower cn0) (insert_employment_history aid d cy db) = 1 ∧
      (insert_employment_history aid d cy db).employment.length =
        db.employment.length + 1) ∧
    (∀ cn0, d.company_name = some cn0 →
      alumni_worked_at aid (some cn0) db = true →
      process_employment_claim aid d cy db =
        update_employment_history aid d cy db ∧
      (update_employment_history aid d cy db).employment.length =
        db.employment.length ∧
      (∀ (i : Nat) (r : EmploymentRow), db.employment[i]? = some r →
        (r.alumni_id == aid && r.company_name == some (str_lower cn0)) = false →
        (update_employment_history aid d cy db).employment[i]? = some r)) := by
  refine ⟨?_, ?_, ?_⟩
  · intro hinv
    unfold process_employment_claim
    by_cases hw : alumni_worked_at aid d.company_name db = true
    · rw [if_pos hw]
      intro a' cn'
      rw [update_employment_history_pair_count]
      exact hinv a' cn'
    · rw [if_neg hw]
      cases hcn : d.company_name with
      | none =>
          simp only [insert_employment_history, hcn]
          exact hinv
      | some cn0 =>
          have hemp := insert_or_get_company_employment (some (str_lower cn0)) none db
          have hzero : db.employment.countP (fun r =>
              r.alumni_id == aid && r.company_name == some (str_lower cn0)) = 0 := by
            rw [hcn] at hw
            simp only [alumni_worked_at, decide_eq_true_eq] at hw
            omega
          simp only [insert_employment_history, hcn]
          by_cases hconf : ((insert_or_get_company (some (str_lower cn0)) none db).1.employment.any
              (fun r => r.alumni_id == aid &&
                r.company_id == (insert_or_get_company (some (str_lower cn0)) none db).2)) = true
          · rw [if_pos hconf]
            intro a' cn'
            unfold emp_pair_count
            rw [hemp]
            exact hinv a' cn'
          · rw [if_neg hconf]
            intro a' cn'
            unfold emp_pair_count
            simp only [hemp]
            rw [List.countP_append]
            by_cases hmatch : ((⟨aid, (insert_or_get_company (some (str_lower cn0)) none db).2,
                some (str_lower cn0),
                (clean_employment_years cy d.year_start d.year_end).1,
                (clean_employment_years cy d.year_start d.year_end).2,
                d.location, d.compensation⟩ : EmploymentRow).alumni_id == a' &&
                (some (str_lower cn0) : Option String) == some cn') = true
            · have ha : aid = a' := by
                have := (Bool.and_eq_true _ _).mp hmatch
                exact beq_iff_eq.mp this.1
              have hc : str_lower cn0 = cn' := by
                have := (Bool.and_eq_true _ _).mp hmatch
                exact Option.some.inj (beq_iff_eq.mp this.2)
              subst ha
              subst hc
              have h1 : List.countP (fun r =>
                  r.alumni_id == aid && r.company_name == some (str_lower cn0))
                  db.employment = 0 := hzero
              simp [List.countP_cons, hmatch, h1]
            · have hnew : List.countP (fun r =>
                  r.alumni_id == a' && r.company_name == some cn')
                  [(⟨aid, (insert_or_get_company (some (str_lower cn0)) none db).2,
                    some (str_lower cn0),
                    (clean_employment_years cy d.year_start d.year_end).1,
                    (clean_employment_years cy d.year_start d.year_end).2,
                    d.location, d.compensation⟩ : EmploymentRow)] = 0 := by
                simp only [List.countP_cons, List.countP_nil]
                simp only [Bool.and_eq_true] at hmatch
                simp only [Bool.and_eq_true]
                rw [if_neg]
                intro hcontra
                exact hmatch ⟨by simp [beq_iff_eq.mp hcontra.1],
                  by simp [beq_iff_eq.mp hcontra.2]⟩
              rw [hnew]
              have := hinv a' cn'
              unfold emp_pair_count at this
              omega
  · intro cn0 hcn hfilter
    have hall : ∀ r ∈ db.employment, (r.alumni_id == aid) = false := by
      intro r hr
      have := List.filter_eq_nil_iff.mp hfilter r hr
      simpa using this
    have hzero : db.employment.countP (fun r =>
        r.alumni_id == aid && r.company_name == some (str_lower cn0)) = 0 := by
      rw [List.countP_eq_zero]
      intro r hr
      simp [hall r hr]
    have hw : alumni_worked_at aid d.company_name db = false := by
      simp only [alumni_worked_at, hcn, hzero]
      decide
    have hemp := insert_or_get_company_employment (some (str_lower cn0)) none db
    have hconf : ((insert_or_get_company (some (str_lower cn0)) none db).1.employment.any
        (fun r => r.alumni_id == aid &&
          r.company_id == (insert_or_get_company (some (str_lower cn0)) none db).2)) = false := by
      rw [hemp]
      rw [List.any_eq_false]
      intro r hr
      simp [hall r hr]
    refine ⟨?_, ?_, ?_⟩
    · unfold process_employment_claim
      rw [hw]
      simp
    · simp only [insert_employment_history, hcn]
      rw [if_neg (by simp [hconf])]
      unfold emp_pair_count
      simp only [hemp]
      rw [List.countP_append, hzero]
      simp [List.countP_cons]
    · simp only [insert_employment_history, hcn]
      rw [if_neg (by simp [hconf])]
      simp [hemp]
  · intro cn0 hcn hw
    have hemp := insert_or_get_company_employment (some (str_lower cn0)) none db
    refine ⟨?_, ?_, ?_⟩
    · unfold process_employment_claim
      rw [hcn, if_pos hw]
    · simp only [update_employment_history, hcn, hemp]
      simp
    · intro i r hi hpred
      simp only [update_employment_history, hcn, hemp]
      rw [List.getElem?_map, hi]
      simp [hpred]
      intro h1 h2
      rw [h1, h2] at hpred
      simp at hpred

/-- Witness for C4 at a concrete run: the first Acme claim inserts one row,
the second (differently-cased) Acme claim is routed to the update, keeps the
row count at one and preserves the pair invariant. -/
theorem c4_employment_uniqueness_witness :
    process_employment_claim 1 ⟨some "Acme Corp", some "2001", none, none, none⟩
        2025 ⟨[], [], [], [], [], [], 1, 1, 1⟩ =
      insert_employment_history 1 ⟨some "Acme Corp", some "2001", none, none, none⟩
        2025 ⟨[], [], [], [], [], [], 1, 1, 1⟩ ∧
    emp_pair_count 1 "acme corp"
      (insert_employment_history 1 ⟨some "Acme Corp", some "2001", none, none, none⟩
        2025 ⟨[], [], [], [], [], [], 1, 1, 1⟩) = 1 ∧
    process_employment_claim 1 ⟨some "ACME Corp", none, some "2005", some "bonus", none⟩
        2025 ⟨[], [], [], [⟨1, some "acme corp", none⟩],
          [⟨1, some 1, some "acme corp", some 2001, none, none, none⟩], [], 1, 1, 2⟩ =
      update_employment_history 1 ⟨some "ACME Corp", none, some "2005", some "bonus", none⟩
        2025 ⟨[], [], [], [⟨1, some "acme corp", none⟩],
          [⟨1, some 1, some "acme corp", some 2001, none, none, none⟩], [], 1, 1, 2⟩ ∧
    (update_employment_history 1 ⟨some "ACME Corp", none, some "2005", some "bonus", none⟩
        2025 ⟨[], [], [], [⟨1, some "acme corp", none⟩],
          [⟨1, some 1, some "acme corp", some 2001, none, none, none⟩], [], 1, 1, 2⟩).employment =
      [⟨1, some 1, some "acme corp", some 2001, some 2005, none, some "bonus"⟩] ∧
    emp_unique_inv (process_employment_claim 1
      ⟨some "ACME Corp", none, some "2005", some "bonus", none⟩
        2025 ⟨[], [], [], [⟨1, some "acme corp", none⟩],
          [⟨1, some 1, some "acme corp", some 2001, none, none, none⟩], [], 1, 1, 2⟩) := by
  have h2 := (c4_employment_uniqueness ⟨[], [], [], [], [], [], 1, 1, 1⟩ 1
    ⟨some "Acme Corp", some "2001", none, none, none⟩ 2025).2.1 "Acme Corp" rfl (by decide)
  have h3 := (c4_employment_uniqueness
    ⟨[], [], [], [⟨1, some "acme corp", none⟩],
      [⟨1, some 1, some "acme corp", some 2001, none, none, none⟩], [], 1, 1, 2⟩ 1
    ⟨some "ACME Corp", none, some "2005", some "bonus", none⟩ 2025).2.2 "ACME Corp" rfl
    (by decide)
  have h1 := (c4_employment_uniqueness
    ⟨[], [], [], [⟨1, some "acme corp", none⟩],
      [⟨1, some 1, some "acme corp", some 2001, none, none, none⟩], [], 1, 1, 2⟩ 1
    ⟨some "ACME Corp", none, some "2005", some "bonus", none⟩ 2025).1 ?_
  · refine ⟨h2.1, ?_, h3.1, by decide, h1⟩
    have := h2.2.1
    simpa using this
  · intro a c
    unfold emp_pair_count
    simp only [List.countP_cons, List.countP_nil]
    split <;> omega

/-- Helper: the deduplication loop only emits elements whose key is outside
the seen set. -/
theorem dedup_go_key_not_seen (ms : List AffiliationMatch) :
    ∀ (seen : List (String × String)) (m : AffiliationMatch),
      m ∈ dedup_go seen ms → dedup_key m ∉ seen := by
  induction ms with
  | nil => intro seen m hm; simp [dedup_go] at hm
  | cons x rest ih =>
      intro seen m hm
      unfold dedup_go at hm
      by_cases hx : dedup_key x ∈ seen
      · rw [if_pos hx] at hm
        exact ih seen m hm
      · rw [if_neg hx] at hm
        rcases List.mem_cons.mp hm with rfl | hm2
        · exact hx
        · have := ih (dedup_key x :: seen) m hm2
          exact fun hc => this (List.mem_cons_of_mem _ hc)

/-- Helper: the deduplication loop returns a sublist of its input. -/
theorem dedup_go_sublist (ms : List AffiliationMatch) :
    ∀ seen : List (String × String), List.Sublist (dedup_go seen ms) ms := by
  induction ms with
  | nil => intro seen; simp [dedup_go]
  | cons x rest ih =>
      intro seen
      unfold dedup_go
      by_cases hx : dedup_key x ∈ seen
      · rw [if_pos hx]
        exact List.Sublist.cons x (ih seen)
      · rw [if_neg hx]
        exact List.Sublist.cons₂ x (ih (dedup_key x :: seen))

/-- Helper: the deduplication loop output has pairwise distinct
implementation keys. -/
theorem dedup_go_pairwise (ms : List AffiliationMatch) :
    ∀ seen : List (String × String),
      List.Pairwise (fun a b => dedup_key a ≠ dedup_key b)
        (dedup_go seen ms) := by
  induction ms with
  | nil => intro seen; simp [dedup_go]
  | cons x rest ih =>
      intro seen
      unfold dedup_go
      by_cases hx : dedup_key x ∈ seen
      · rw [if_pos hx]
        exact ih seen
      · rw [if_neg hx]
        refine List.Pairwise.cons ?_ (ih (dedup_key x :: seen))
        intro b hb hkey
        have := dedup_go_key_not_seen rest (dedup_key x :: seen) b hb
        exact this (hkey ▸ List.mem_cons_self _ _)

/-- Helper: every element emitted by the deduplication loop is the first
element of the input whose implementation key it bears. -/
theorem dedup_go_first_occurrence (ms : List AffiliationMatch) :
    ∀ (seen : List (String × String)) (m : AffiliationMatch),
      m ∈ dedup_go seen ms →
      ∃ l₁ l₂, ms = l₁ ++ m :: l₂ ∧
        ∀ m' ∈ l₁, dedup_key m' ≠ dedup_key m := by
  induction ms with
  | nil => intro seen m hm; simp [dedup_go] at hm
  | cons x rest ih =>
      intro seen m hm
      have hnotseen := dedup_go_key_not_seen (x :: rest) seen m hm
      unfold dedup_go at hm
      by_cases hx : dedup_key x ∈ seen
      · rw [if_pos hx] at hm
        obtain ⟨l₁, l₂, hsplit, hkeys⟩ := ih seen m hm
        refine ⟨x :: l₁, l₂, by rw [hsplit]; rfl, ?_⟩
        intro m' hm'
        rcases List.mem_cons.mp hm' with rfl | h2
        · intro hkey
          exact hnotseen (hkey ▸ hx)
        · exact hkeys m' h2
      · rw [if_neg hx] at hm
        rcases List.mem_cons.mp hm with rfl | hm2
        · exact ⟨[], rest, rfl, by simp⟩
        · obtain ⟨l₁, l₂, hsplit, hkeys⟩ := ih (dedup_key x :: seen) m hm2
          have hxm : dedup_key x ≠ dedup_key m := by
            have := dedup_go_key_not_seen rest (dedup_key x :: seen) m hm2
            intro hkey
            exact this (hkey ▸ List.mem_cons_self _ _)
          refine ⟨x :: l₁, l₂, by rw [hsplit]; rfl, ?_⟩
          intro m' hm'
          rcases List.mem_cons.mp hm' with rfl | h2
          · exact hxm
          · exact hkeys m' h2

/-- Helper: an element that is the first occurrence of its implementation
key, with a key outside the seen set, is kept by the deduplication loop. -/
theorem dedup_go_keeps_first (l₁ : List AffiliationMatch) :
    ∀ (seen : List (String × String)) (m : AffiliationMatch)
      (l₂ : List AffiliationMatch),
      dedup_key m ∉ seen →
      (∀ m' ∈ l₁, dedup_key m' ≠ dedup_key m) →
      m ∈ dedup_go seen (l₁ ++ m :: l₂) := by
  induction l₁ with
  | nil =>
      intro seen m l₂ hseen _
      simp only [List.nil_append]
      unfold dedup_go
      rw [if_neg hseen]
      exact List.mem_cons_self _ _
  | cons x rest ih =>
      intro seen m l₂ hseen hkeys
      have hxm : dedup_key x ≠ dedup_key m := hkeys x (List.mem_cons_self _ _)
      have hkeys' : ∀ m' ∈ rest, dedup_key m' ≠ dedup_key m :=
        fun m' hm' => hkeys m' (List.mem_cons_of_mem _ hm')
      simp only [List.cons_append]
      unfold dedup_go
      by_cases hx : dedup_key x ∈ seen
      · rw [if_pos hx]
        exact ih seen m l₂ hseen hkeys'
      · rw [if_neg hx]
        refine List.mem_cons_of_mem _ ?_
        refine ih (dedup_key x :: seen) m l₂ ?_ hkeys'
        intro hc
        rcases List.mem_cons.mp hc with hc1 | hc2
        · exact hxm hc1.symm
        · exact hseen hc2

/-- Counterexample to C5: the two claims differ only by leading whitespace
in the name, so their keys in the claimed sense (lower-cased, no stripping)
are distinct, yet the deduplicator (which strips before comparing) drops the
second; the sole first occurrence of the key (john, c) is therefore not
kept, refuting keeps-exactly-the-first-occurrence for the claimed key. -/
theorem c5_counterexample :
    deduplicate_matches
      [⟨" John", "t", "c", "h"⟩, ⟨"John", "t", "c", "h"⟩] =
      [⟨" John", "t", "c", "h"⟩] ∧
    spec_dedup_key ⟨"John", "t", "c", "h"⟩ ≠
      spec_dedup_key ⟨" John", "t", "c", "h"⟩ := by
  exact ⟨by decide, by decide⟩

/-- Amended C5: with the key the code actually uses (whitespace-stripped
lower-cased name, whitespace-stripped lower-cased first 100 context
characters) the output contains each key at most once, is an order-stable
sublist of the input, every kept claim is the first occurrence of its key,
and conversely every claim that is the first occurrence of its key is
kept. -/
theorem c5_amended_deduplicate_matches (ms : List AffiliationMatch) :
    List.Pairwise (fun a b => dedup_key a ≠ dedup_key b)
      (deduplicate_matches ms) ∧
    List.Sublist (deduplicate_matches ms) ms ∧
    (∀ m ∈ deduplicate_matches ms, ∃ l₁ l₂, ms = l₁ ++ m :: l₂ ∧
      ∀ m' ∈ l₁, dedup_key m' ≠ dedup_key m) ∧
    (∀ (l₁ l₂ : List AffiliationMatch) (m : AffiliationMatch),
      ms = l₁ ++ m :: l₂ →
      (∀ m' ∈ l₁, dedup_key m' ≠ dedup_key m) →
      m ∈ deduplicate_matches ms) := by
  refine ⟨dedup_go_pairwise ms [], dedup_go_sublist ms [], ?_, ?_⟩
  · intro m hm
    exact dedup_go_first_occurrence ms [] m hm
  · intro l₁ l₂ m hsplit hkeys
    rw [hsplit]
    exact dedup_go_keeps_first l₁ [] m l₂ (by simp) hkeys

/-- Witness for the amended C5: the duplicate-keyed claim is dropped while
the first occurrences of both keys are kept, and the completeness direction
applies to the last claim concretely. -/
theorem c5_amended_deduplicate_matches_witness :
    deduplicate_matches
      [⟨"John Smith", "degree", "MBA from BU", "high"⟩,
        ⟨"JOHN SMITH", "education", "mba FROM bu", "medium"⟩,
        ⟨"Jane Doe", "position", "professor at BU", "high"⟩] =
      [⟨"John Smith", "degree", "MBA from BU", "high"⟩,
        ⟨"Jane Doe", "position", "professor at BU", "high"⟩] ∧
    ⟨"Jane Doe", "position", "professor at BU", "high"⟩ ∈
      deduplicate_matches
        [⟨"John Smith", "degree", "MBA from BU", "high"⟩,
          ⟨"JOHN SMITH", "education", "mba FROM bu", "medium"⟩,
          ⟨"Jane Doe", "position", "professor at BU", "high"⟩] := by
  refine ⟨by decide, ?_⟩
  exact (c5_amended_deduplicate_matches
    [⟨"John Smith", "degree", "MBA from BU", "high"⟩,
      ⟨"JOHN SMITH", "education", "mba FROM bu", "medium"⟩,
      ⟨"Jane Doe", "position", "professor at BU", "high"⟩]).2.2.2
    [⟨"John Smith", "degree", "MBA from BU", "high"⟩,
      ⟨"JOHN SMITH", "education", "mba FROM bu", "medium"⟩] []
    ⟨"Jane Doe", "position", "professor at BU", "high"⟩ rfl (by decide)

/-- Counterexample to C6: two title-qualified claims share the last name
Smith while no bare-name claim was accepted at all (the bare last-name set
is empty), yet only the first of them is kept — so inclusion is not
equivalent to the last name being absent from the bare-name set, and a
title-qualified claim with a last name unseen among bare-name claims can be
dropped. -/
theorem c6_counterexample :
    (reconcile_pass c6_extract ["t"]).person_matches = [] ∧
    (reconcile_pass c6_extract ["t"]).last_name_set = [] ∧
    name_is_titled "Dr. Smith" = true ∧
    name_last_word "Dr. Smith" = "Smith" ∧
    (reconcile_person_matches ["t"] c6_extract).map (fun p => p.name) =
      ["Mr. Smith"] := by
  refine ⟨rfl, rfl, by decide, by decide, by decide⟩

/-- Amended C6: a title-qualified claim is kept by the merge exactly when
its last name is outside the accumulated last-name set (the last names of
the accepted bare-name claims) and no earlier title-qualified claim bears
the same last name; in particular the first titled claim with a last name
absent from the bare set is always kept. -/
theorem c6_amended_merge_titled (S : List String) (T : List PersonDict)
    (t : PersonDict) :
    t ∈ merge_titled S T ↔
      ∃ l₁ l₂, T = l₁ ++ t :: l₂ ∧ name_last_word t.name ∉ S ∧
        ∀ u ∈ l₁, name_last_word u.name ≠ name_last_word t.name := by
  induction T generalizing S with
  | nil =>
      simp [merge_titled]
  | cons h rest ih =>
      unfold merge_titled
      by_cases hh : name_last_word h.name ∈ S
      · rw [if_pos hh]
        rw [ih S]
        constructor
        · rintro ⟨l₁, l₂, hsplit, hnot, hkeys⟩
          refine ⟨h :: l₁, l₂, by rw [hsplit]; rfl, hnot, ?_⟩
          intro u hu
          rcases List.mem_cons.mp hu with rfl | hu2
          · intro hkey
            exact hnot (hkey ▸ hh)
          · exact hkeys u hu2
        · rintro ⟨l₁, l₂, hsplit, hnot, hkeys⟩
          cases l₁ with
          | nil =>
              obtain ⟨rfl, -⟩ := List.cons.inj hsplit
              exact absurd hh hnot
          | cons p l₁ =>
              obtain ⟨rfl, hrest⟩ := List.cons.inj hsplit
              exact ⟨l₁, l₂, hrest, hnot,
                fun u hu => hkeys u (List.mem_cons_of_mem _ hu)⟩
      · rw [if_neg hh]
        constructor
        · intro hmem
          rcases List.mem_cons.mp hmem with rfl | hmem2
          · exact ⟨[], rest, rfl, hh, by simp⟩
          · obtain ⟨l₁, l₂, hsplit, hnot, hkeys⟩ :=
              (ih (name_last_word h.name :: S)).mp hmem2
            have hht : name_last_word h.name ≠ name_last_word t.name := by
              intro hkey
              exact hnot (hkey ▸ List.mem_cons_self _ _)
            refine ⟨h :: l₁, l₂, by rw [hsplit]; rfl,
              fun hc => hnot (List.mem_cons_of_mem _ hc), ?_⟩
            intro u hu
            rcases List.mem_cons.mp hu with rfl | hu2
            · exact hht
            · exact hkeys u hu2
        · rintro ⟨l₁, l₂, hsplit, hnot, hkeys⟩
          cases l₁ with
          | nil =>
              obtain ⟨rfl, -⟩ := List.cons.inj hsplit
              exact List.mem_cons_self _ _
          | cons p l₁ =>
              obtain ⟨rfl, hrest⟩ := List.cons.inj hsplit
              have hpt : name_last_word h.name ≠ name_last_word t.name :=
                hkeys h (List.mem_cons_self _ _)
              refine List.mem_cons_of_mem _ ?_
              refine (ih (name_last_word h.name :: S)).mpr
                ⟨l₁, l₂, hrest, ?_, fun u hu => hkeys u (List.mem_cons_of_mem _ hu)⟩
              intro hc
              rcases List.mem_cons.mp hc with hc1 | hc2
              · exact hpt hc1.symm
              · exact hnot hc2

/-- Witness for the amended C6: a single titled claim whose last name is
absent from the bare last-name set is kept by the merge. -/
theorem c6_amended_merge_titled_witness :
    (⟨"Mr. Smith", some "Y", none⟩ : PersonDict) ∈
      merge_titled ["Jones"] [⟨"Mr. Smith", some "Y", none⟩] := by
  exact (c6_amended_merge_titled ["Jones"] [⟨"Mr. Smith", some "Y", none⟩]
    ⟨"Mr. Smith", some "Y", none⟩).mpr
    ⟨[], [], rfl, by decide, by simp⟩

/-- Helper: when no heading pattern matches, no candidate windows are
collected for any pattern of a list. -/
theorem sections_join_nil (cs : List Char) (l : List (RPat × String))
    (h : ∀ pn ∈ l, finditer pn.1 cs = []) :
    (l.map (fun pn => sections_for cs pn.1 pn.2)).flatten = [] := by
  induction l with
  | nil => rfl
  | cons p rest ih =>
      have hp : finditer p.1 cs = [] := h p (List.mem_cons_self _ _)
      have hrest := ih (fun pn hpn => h pn (List.mem_cons_of_mem _ hpn))
      simp only [List.map_cons, List.flatten_cons, hrest, List.append_nil]
      unfold sections_for
      rw [hp]
      rfl

/-- Counterexample to C8: a document in which zero candidate sections
survive the heading-pattern search (no pattern matches at all), for which
the locator returns the empty list rather than a fallback-paragraph
section. -/
theorem c8_counterexample :
    (∀ pn ∈ bio_patterns, finditer pn.1 ("hello world").toList = []) ∧
    find_biographical_sections "hello world" = [] := by
  exact ⟨by decide, by decide⟩

/-- Amended C8: when the heading-pattern search yields no match,
find_biographical_sections returns the empty list — there is no
fallback-paragraph section in the locator. -/
theorem c8_amended_locator_empty (document_text : String)
    (h : ∀ pn ∈ bio_patterns, finditer pn.1 document_text.toList = []) :
    find_biographical_sections document_text = [] := by
  simp only [find_biographical_sections]
  rw [sections_join_nil document_text.toList bio_patterns h]
  rfl

/-- Witness for the amended C8 at a concrete heading-free document. -/
theorem c8_amended_locator_empty_witness :
    find_biographical_sections "no recognizable heading here" = [] :=
  c8_amended_locator_empty "no recognizable heading here" (by decide)

/-- Counterexample to C9: the stored filing date 2020-01-01 is non-null,
yet update_filing overwrites it with the incoming 2021-02-02 (the SQL is
COALESCE(incoming, stored)); the extracted text is newline-concatenated as
claimed. -/
theorem c9_counterexample :
    (update_filing 1 "L" none none "new" (some "2021-02-02")
        ⟨[], [], [], [], [],
          [⟨1, "L", some 7, some "2020-01-01", some "old"⟩], 1, 1, 1⟩).filings =
      [⟨1, "L", some 7, some "2021-02-02", some "old\nnew"⟩] ∧
    (some "2021-02-02" : Option String) ≠ some "2020-01-01" := by
  exact ⟨by decide, by decide⟩

/-- Amended C9: on a repeated sighting of the same (alum, document) pair the
stored text is newline-concatenated (never overwritten), while the filing
date and company reference follow COALESCE(incoming, stored): an incoming
non-null value overwrites the stored one and the stored value survives only
when the incoming one is null. -/
theorem c9_amended_update_filing (db : DB) (aid : Nat) (lnk t : String)
    (fd : Option String) (s : String) (row : FilingRow)
    (hfilter : db.filings.filter
      (fun f => f.alumni_id == aid && f.link == lnk) = [row])
    (htext : row.text_extracted = some s) (hs : s ≠ "") :
    ((update_filing aid lnk none none t fd db).filings =
      db.filings.map (fun f =>
        if f.alumni_id == aid && f.link == lnk then
          { f with
              date := sqlCoalesce fd f.date,
              text_extracted := some (s ++ "\n" ++ t) }
        else f)) ∧
    ((update_filing aid lnk none none t fd db).filings.find?
        (fun f => f.alumni_id == aid && f.link == lnk) =
      some { row with
        date := sqlCoalesce fd row.date,
        text_extracted := some (s ++ "\n" ++ t) }) ∧
    (∀ (k : String) (cid : Nat), k ≠ "" → find_company_by_cik k db = some cid →
      (update_filing aid lnk none (some k) t fd db).filings.find?
          (fun f => f.alumni_id == aid && f.link == lnk) =
        some { row with
          company_id := some cid,
          date := sqlCoalesce fd row.date,
          text_extracted := some (s ++ "\n" ++ t) }) := by
  have hmapA : (update_filing aid lnk none none t fd db).filings =
      db.filings.map (fun f =>
        if f.alumni_id == aid && f.link == lnk then
          { f with
              date := sqlCoalesce fd f.date,
              text_extracted := some (s ++ "\n" ++ t) }
        else f) := by
    simp only [update_filing, hfilter]
    simp only [List.map_cons, List.head?_cons, htext]
    rw [if_neg hs]
    apply List.map_congr_left
    intro f hf
    by_cases hp : (f.alumni_id == aid && f.link == lnk) = true
    · simp [hp, sqlCoalesce]
    · simp [hp]
  refine ⟨hmapA, ?_, ?_⟩
  · rw [hmapA]
    have h := find?_map_guard (fun f : FilingRow => f.alumni_id == aid && f.link == lnk)
      (fun f => { f with
        date := sqlCoalesce fd f.date,
        text_extracted := some (s ++ "\n" ++ t) })
      (fun f hf => hf) db.filings
    rw [h, find?_of_filter_singleton _ _ _ hfilter]
    rfl
  · intro k cid hk hcik
    have hmapB : (update_filing aid lnk none (some k) t fd db).filings =
        db.filings.map (fun f =>
          if f.alumni_id == aid && f.link == lnk then
            { f with
                company_id := some cid,
                date := sqlCoalesce fd f.date,
                text_extracted := some (s ++ "\n" ++ t) }
          else f) := by
      simp only [update_filing]
      rw [if_neg hk, hcik]
      simp only [hfilter, List.map_cons, List.head?_cons, htext]
      rw [if_neg hs]
      apply List.map_congr_left
      intro f hf
      by_cases hp : (f.alumni_id == aid && f.link == lnk) = true
      · simp [hp, sqlCoalesce]
      · simp [hp]
    rw [hmapB]
    have h := find?_map_guard (fun f : FilingRow => f.alumni_id == aid && f.link == lnk)
      (fun f => { f with
        company_id := some cid,
        date := sqlCoalesce fd f.date,
        text_extracted := some (s ++ "\n" ++ t) })
      (fun f hf => hf) db.filings
    rw [h, find?_of_filter_singleton _ _ _ hfilter]
    rfl

/-- Witness for the amended C9: concatenation plus incoming-wins date on a
concrete store, both with and without an incoming company reference. -/
theorem c9_amended_update_filing_witness :
    (update_filing 1 "L" none none "new" (some "2021-02-02")
        ⟨[], [], [], [⟨7, some "acme", some "0000000007"⟩], [],
          [⟨1, "L", none, some "2020-01-01", some "old"⟩], 1, 1, 8⟩).filings.find?
        (fun f => f.alumni_id == 1 && f.link == "L") =
      some ⟨1, "L", none, some "2021-02-02", some "old\nnew"⟩ ∧
    (update_filing 1 "L" none (some "0000000007") "new" none
        ⟨[], [], [], [⟨7, some "acme", some "0000000007"⟩], [],
          [⟨1, "L", none, some "2020-01-01", some "old"⟩], 1, 1, 8⟩).filings.find?
        (fun f => f.alumni_id == 1 && f.link == "L") =
      some ⟨1, "L", some 7, some "2020-01-01", some "old\nnew"⟩ := by
  have h := c9_amended_update_filing
    ⟨[], [], [], [⟨7, some "acme", some "0000000007"⟩], [],
      [⟨1, "L", none, some "2020-01-01", some "old"⟩], 1, 1, 8⟩
    1 "L" "new" (some "2021-02-02") "old"
    ⟨1, "L", none, some "2020-01-01", some "old"⟩ (by decide) rfl (by decide)
  have h2 := c9_amended_update_filing
    ⟨[], [], [], [⟨7, some "acme", some "0000000007"⟩], [],
      [⟨1, "L", none, some "2020-01-01", some "old"⟩], 1, 1, 8⟩
    1 "L" "new" none "old"
    ⟨1, "L", none, some "2020-01-01", some "old"⟩ (by decide) rfl (by decide)
  refine ⟨h.2.1.trans (by decide), ?_⟩
  exact (h2.2.2 "0000000007" 7 (by decide) (by decide)).trans (by decide)
